import Mathlib

/-! Admin helper functions of ostree (`src/ostree/ot-admin-functions.c`).

A shallow embedding of the four helpers of the file and of the sysroot lock
acquisition protocol.  Pure lookups are plain functions.  The lock protocol is
embedded with explicit state passing: the calls the C function makes into GLib
and libostree are recorded, in program order, in a trace of `Effect`s, and the
behaviour of the collaborators (the outcome of the try-lock, what each iteration
of the private main loop finds ready) is an input of the model.
-/

namespace OtAdmin

/-! ## Errors -/

/-- A GLib `GError`: error domain, numeric code and human readable message. -/
structure GError where
  domain : String
  code : Int
  message : String
deriving DecidableEq, Repr

/-- The error domain `G_IO_ERROR` of GIO. -/
def G_IO_ERROR : String := "g-io-error-quark"

/-- The code `G_IO_ERROR_NOT_FOUND` of the `GIOErrorEnum` enumeration. -/
def G_IO_ERROR_NOT_FOUND : Int := 1

/-! ## Machine integers -/

/-- Largest value of the C type `int` (32 bits). -/
def INT_MAX : Int := 2147483647

/-- The conversion of an `int` to `unsigned int` that the usual arithmetic
conversions apply to the left operand of `index >= current_deployments->len`. -/
def to_guint (i : Int) : Nat := (i % 4294967296).toNat

/-- The number `printf` shows for the directive `%d` given a `guint`. -/
def guint_as_int (n : Nat) : Int :=
  if n % 4294967296 < 2147483648 then ((n % 4294967296 : Nat) : Int)
  else ((n % 4294967296 : Nat) : Int) - 4294967296

/-! ## The sysroot -/

/-- The part of an `OstreeSysroot` the helpers read: the deployment list
(`ostree_sysroot_get_deployments`) and the booted deployment, if any
(`ostree_sysroot_get_booted_deployment`). -/
structure OstreeSysroot (D : Type) where
  deployments : List D
  booted_deployment : Option D

/-! ## `ot_admin_get_indexed_deployment` -/

/-- What `ot_admin_get_indexed_deployment` hands back: a new reference to a
deployment, `NULL` with the error set, or a read outside of `pdata`. -/
inductive IndexedDeployment (D : Type) where
  | deployment (d : D)
  | failed (error : GError)
  | invalid_read
deriving DecidableEq, Repr

/-- Lines 65-89.  `index` is a C `int`; the length of the array is a `guint`,
so the second comparison is carried out on `unsigned int`. -/
def ot_admin_get_indexed_deployment {D : Type} (sysroot : OstreeSysroot D) (index : Int) :
    IndexedDeployment D :=
  let current_deployments := sysroot.deployments
  let len : Nat := current_deployments.length
  if index < 0 then
    .failed ⟨G_IO_ERROR, G_IO_ERROR_NOT_FOUND, "Invalid index " ++ toString index⟩
  else if to_guint index ≥ len then
    .failed ⟨G_IO_ERROR, G_IO_ERROR_NOT_FOUND,
      "Out of range deployment index " ++ toString index ++ ", expected < "
        ++ toString (guint_as_int len)⟩
  else
    match current_deployments[index.toNat]? with
    | some d => .deployment d
    | none => .invalid_read

/-! ## `ot_admin_checksum_version` -/

/-- A value boxed in an `a{sv}` dictionary. -/
inductive GVariantValue where
  | str (s : String)
  | uint64 (n : Nat)
  | boolean (b : Bool)
  | bytes (data : List Nat)
deriving DecidableEq, Repr

/-- A child of a tuple `GVariant`: an `a{sv}` dictionary or any other value. -/
inductive GVariantChild where
  | vardict (entries : List (String × GVariantValue))
  | plain (v : GVariantValue)
deriving DecidableEq, Repr

/-- Modelled from the spec: the macro `OSTREE_COMMIT_META_KEY_VERSION` of
libostree, the "well-known version key" whose example entry is
`"version": "33.1"`. -/
def OSTREE_COMMIT_META_KEY_VERSION : String := "version"

/-- GLib's `g_variant_get_child_value`: the child at `index`; asking for a child
the container does not have aborts the process (`none`). -/
def g_variant_get_child_value (value : List GVariantChild) (index : Nat) :
    Option GVariantChild :=
  value[index]?

/-- GLib's `g_variant_lookup_value` without an expected type: the value of the
first entry whose key is `key`. -/
def g_variant_lookup_value : List (String × GVariantValue) → String → Option GVariantValue
  | [], _ => none
  | (k, v) :: rest, key => if k = key then some v else g_variant_lookup_value rest key

/-- GLib's `g_variant_lookup` with the format string `"&s"`: succeeds, giving the
string, when the dictionary has the key and the value stored there is a
string; a value that is no dictionary is refused by the precondition check. -/
def g_variant_lookup_string (dictionary : GVariantChild) (key : String) : Option String :=
  match dictionary with
  | .plain _ => none
  | .vardict entries =>
    match g_variant_lookup_value entries key with
    | some (.str s) => some s
    | _ => none

/-- Result of `ot_admin_checksum_version`: a newly allocated string, `NULL`, or
the process aborted inside GLib. -/
inductive VersionResult where
  | version (s : String)
  | null
  | aborted
deriving DecidableEq, Repr

/-- Lines 51-63. -/
def ot_admin_checksum_version (checksum : List GVariantChild) : VersionResult :=
  match g_variant_get_child_value checksum 0 with
  | none => .aborted
  | some metadata =>
    match g_variant_lookup_string metadata OSTREE_COMMIT_META_KEY_VERSION with
    | none => .null
    | some ret => .version ret

/-! ## `ot_admin_execve_reboot` -/

/-- A value of `errno` together with what `g_io_error_from_errno` and
`g_strerror` make of it. -/
structure Errno where
  io_code : Int
  text : String
deriving DecidableEq, Repr

/-- What a call of `execlp` does: it replaces the process image and never
returns, or it returns `rc` having set `errno`. -/
inductive ExecOutcome where
  | image_replaced
  | returned (rc : Int) (errsv : Errno)
deriving DecidableEq, Repr

/-- One call of `execlp`: the file searched for and the argument vector. -/
structure ExecCall where
  file : String
  argv : List String
deriving DecidableEq, Repr

/-- How `ot_admin_execve_reboot` ends: it returns `ret` with `*error` as given,
or the process is now `systemctl`. -/
inductive RebootReturn where
  | returned (ret : Bool) (error : Option GError)
  | image_replaced
deriving DecidableEq, Repr

/-- Outcome of `ot_admin_execve_reboot`: the calls of `execlp` made and how the
function ended. -/
structure RebootResult where
  exec_calls : List ExecCall
  outcome : RebootReturn
deriving DecidableEq, Repr

/-- The function `glnx_throw_errno_prefix` of libglnx: sets the error to the GIO
code of `errno` with the message `<context>: <strerror>` and returns `FALSE`. -/
def glnx_throw_errno_prefix (errsv : Errno) (context : String) : Bool × Option GError :=
  (false, some ⟨G_IO_ERROR, errsv.io_code, context ++ ": " ++ errsv.text⟩)

/-- Lines 150-164.  `execlp` is the behaviour of the system call, should it be
made. -/
def ot_admin_execve_reboot {D : Type} (sysroot : OstreeSysroot D) (execlp : ExecOutcome) :
    RebootResult :=
  let booted := sysroot.booted_deployment
  if booted.isNone then
    ⟨[], .returned true none⟩
  else
    let call : ExecCall := ⟨"systemctl", ["systemctl", "reboot"]⟩
    match execlp with
    | .image_replaced => ⟨[call], .image_replaced⟩
    | .returned rc errsv =>
      if rc < 0 then
        let r := glnx_throw_errno_prefix errsv "execve(systemctl reboot)"
        ⟨[call], .returned r.1 r.2⟩
      else
        ⟨[call], .returned true none⟩

/-! ## The sysroot lock protocol -/

/-- A call the lock protocol makes into GLib or libostree, or a store to the
`running` field of the context state.  A main context is named by its handle. -/
inductive Effect where
  | context_new (ctx : Nat)
  | push_thread_default (ctx : Nat)
  | try_lock
  | timeout_source_new_seconds (interval : Nat)
  | source_set_callback
  | source_attach (ctx : Nat)
  | source_unref
  | print (text : String)
  | lock_async
  | iteration (ctx : Nat) (may_block : Bool)
  | store_running (value : Bool)
  | wakeup (ctx : Nat)
  | pop_thread_default (ctx : Nat)
  | context_unref (ctx : Nat)
deriving DecidableEq, Repr

/-- Lines 91-94, `struct ContextState`. -/
structure ContextState where
  mainctx : Nat
  running : Bool
deriving DecidableEq, Repr

/-- The world outside the C function: the calls made so far (oldest first),
whether the timeout source is attached to the private context, whether the
asynchronous lock request is outstanding, and whether this process holds the
sysroot lock. -/
structure World where
  trace : List Effect
  timeout_attached : Bool
  async_pending : Bool
  lock_held : Bool
deriving DecidableEq, Repr

/-- Record one more call. -/
def World.emit (w : World) (e : Effect) : World :=
  { w with trace := w.trace ++ [e] }

/-- Something an iteration of the private main loop finds ready: the timeout
source, or the completion of the asynchronous lock request (with the error it
failed with, if it failed). -/
inductive LoopEvent where
  | timeout_ready
  | lock_finished (failure : Option GError)
deriving DecidableEq, Repr

/-- The collaborators of one call of `ot_admin_sysroot_lock`: the handle
`g_main_context_new` returns, the outcome of `ostree_sysroot_try_lock` (an error,
or success with the flag `acquired`), and what each successive blocking
iteration of the private loop finds ready.  When the list of iterations is
used up the loop blocks for good. -/
structure LockEnv where
  ctx : Nat
  try_lock : Except GError Bool
  schedule : List (List LoopEvent)

/-- The text `on_sysroot_lock_timeout` prints. -/
def WAITING_MESSAGE : String := "Waiting for sysroot lock...\n"

/-- Lines 96-101.  The return value `TRUE` keeps the source attached. -/
def on_sysroot_lock_timeout (user_data : ContextState) (w : World) :
    Bool × ContextState × World :=
  (true, user_data, w.emit (.print WAITING_MESSAGE))

/-- Lines 103-110.  The `GAsyncResult` is not looked at. -/
def on_sysroot_lock_acquired (_result : Option GError) (state : ContextState) (w : World) :
    ContextState × World :=
  let state := { state with running := false }
  let w := w.emit (.store_running false)
  (state, w.emit (.wakeup state.mainctx))

/-- GLib dispatching one ready source.  The timeout source runs its callback
while it is attached and stays attached as long as the callback returns `TRUE`;
the asynchronous lock request completes at most once, and when it completes
without an error the process holds the lock. -/
def dispatch (state : ContextState) (w : World) : LoopEvent → ContextState × World
  | .timeout_ready =>
    if w.timeout_attached then
      let r := on_sysroot_lock_timeout state w
      (r.2.1, { r.2.2 with timeout_attached := r.1 })
    else (state, w)
  | .lock_finished failure =>
    if w.async_pending then
      on_sysroot_lock_acquired failure state
        { w with async_pending := false, lock_held := w.lock_held || failure.isNone }
    else (state, w)

/-- Dispatching the ready sources of one iteration, in order. -/
def dispatch_all : List LoopEvent → ContextState → World → ContextState × World
  | [], state, w => (state, w)
  | ev :: rest, state, w =>
    let r := dispatch state w ev
    dispatch_all rest r.1 r.2

/-- One call `g_main_context_iteration (ctx, may_block)` that finds `ready`. -/
def g_main_context_iteration (ctx : Nat) (may_block : Bool) (ready : List LoopEvent)
    (state : ContextState) (w : World) : ContextState × World :=
  dispatch_all ready state (w.emit (.iteration ctx may_block))

/-- Lines 139-140: `while (state.running) g_main_context_iteration (state.mainctx, TRUE);`.
The result is `none` when the loop is left blocked with nothing to wake it. -/
def wait_loop : List (List LoopEvent) → ContextState → World → Option (ContextState × World)
  | [], state, w => if state.running then none else some (state, w)
  | ready :: rest, state, w =>
    if state.running then
      let r := g_main_context_iteration state.mainctx true ready state w
      wait_loop rest r.1 r.2
    else some (state, w)

/-- What a call of `ot_admin_sysroot_lock` that returns leaves behind. -/
structure LockResult where
  ret : Bool
  error : Option GError
  state : ContextState
  world : World
deriving DecidableEq, Repr

/-- The world before the call: nothing recorded, nothing registered, lock not
held. -/
def World.start : World := ⟨[], false, false, false⟩

/-- Lines 144-147, the label `out`. -/
def sysroot_lock_out (ret : Bool) (error : Option GError) (state : ContextState) (w : World) :
    LockResult :=
  let w := w.emit (.pop_thread_default state.mainctx)
  let w := w.emit (.context_unref state.mainctx)
  ⟨ret, error, state, w⟩

/-- Lines 118-121, the initialiser of `state`. -/
def context_state_init (mainctx : Nat) : ContextState :=
  { mainctx := mainctx, running := true }

/-- Lines 112-148.  `none`: the call never returns. -/
def ot_admin_sysroot_lock (env : LockEnv) : Option LockResult :=
  let w := World.start.emit (.context_new env.ctx)
  let state : ContextState := context_state_init env.ctx
  let w := w.emit (.push_thread_default state.mainctx)
  let w := w.emit .try_lock
  match env.try_lock with
  | .error e => some (sysroot_lock_out false (some e) state w)
  | .ok acquired =>
    let w := { w with lock_held := acquired }
    if !acquired then
      let w := w.emit (.timeout_source_new_seconds 3)
      let w := w.emit .source_set_callback
      let w := { w.emit (.source_attach state.mainctx) with timeout_attached := true }
      let w := w.emit .source_unref
      let r := on_sysroot_lock_timeout state w
      let w := { r.2.2.emit .lock_async with async_pending := true }
      match wait_loop env.schedule r.2.1 w with
      | none => none
      | some (state, w) => some (sysroot_lock_out true none state w)
    else
      some (sysroot_lock_out true none state w)

/-- Number of progress messages printed. -/
def count_messages (t : List Effect) : Nat :=
  (t.filter (fun e => decide (e = .print WAITING_MESSAGE))).length

/-- Number of iterations of a main loop run. -/
def count_iterations (t : List Effect) : Nat :=
  (t.filter (fun e => match e with | .iteration _ _ => true | _ => false)).length

/-- Number of stores to the `running` field. -/
def count_stores (t : List Effect) : Nat :=
  (t.filter (fun e => match e with | .store_running _ => true | _ => false)).length

/-- Number of calls of `ostree_sysroot_try_lock`. -/
def count_try_lock (t : List Effect) : Nat :=
  (t.filter (fun e => decide (e = .try_lock))).length

/-- The stores to `running` and the wake-ups of a main context, in order. -/
def completion_effects (t : List Effect) : List Effect :=
  t.filter (fun e => match e with
    | .store_running _ | .wakeup _ => true
    | _ => false)

/-- The calls only the body of the `if (!acquired)` block makes, apart from the
loop: creating, configuring and attaching the timeout source and issuing the
asynchronous request. -/
def wait_setup (t : List Effect) : List Effect :=
  t.filter (fun e => match e with
    | .timeout_source_new_seconds _ | .source_set_callback | .source_attach _
    | .source_unref | .lock_async => true
    | _ => false)

/-- What the call has done on the contended path when it enters the loop. -/
def contended_header (ctx : Nat) : List Effect :=
  [.context_new ctx, .push_thread_default ctx, .try_lock, .timeout_source_new_seconds 3,
    .source_set_callback, .source_attach ctx, .source_unref, .print WAITING_MESSAGE,
    .lock_async]

/-- What the loop can do on behalf of the call: run an iteration of the private
context, print the progress message, clear `running`, wake the private
context. -/
def loop_effect (ctx : Nat) (e : Effect) : Bool :=
  decide (e = .iteration ctx true) || decide (e = .print WAITING_MESSAGE)
    || decide (e = .store_running false) || decide (e = .wakeup ctx)

/-- A schedule of iterations that find the timeout source ready the given
number of times and nothing else. -/
def timer_schedule (firings : List Nat) : List (List LoopEvent) :=
  firings.map (fun n => List.replicate n .timeout_ready)

/-- The calls made while the loop runs `timer_schedule firings`. -/
def timer_iterations (ctx : Nat) : List Nat → List Effect
  | [] => []
  | n :: rest =>
    .iteration ctx true :: (List.replicate n (.print WAITING_MESSAGE) ++ timer_iterations ctx rest)

/-- The calls that create, register, unregister and release a main context. -/
def context_lifecycle (t : List Effect) : List Effect :=
  t.filter (fun e => match e with
    | .context_new _ | .push_thread_default _ | .pop_thread_default _ | .context_unref _ => true
    | _ => false)

/-- An execution of `ot_admin_sysroot_lock` as far as the collaborators carry it:
the call has returned, or it sits in the loop of lines 139-140 with `running`
set and no iteration left that could wake it. -/
inductive LockExecution where
  | returned (r : LockResult)
  | blocked (state : ContextState) (world : World)
deriving DecidableEq, Repr

/-- What a call that has returned hands back; nothing for a blocked call. -/
def LockExecution.result : LockExecution → Option LockResult
  | .returned r => some r
  | .blocked _ _ => none

/-- The local `state` at the end of the execution. -/
def LockExecution.state : LockExecution → ContextState
  | .returned r => r.state
  | .blocked state _ => state

/-- The world at the end of the execution, with everything the call has done. -/
def LockExecution.world : LockExecution → World
  | .returned r => r.world
  | .blocked _ world => world

/-- Lines 139-140 again, keeping what the loop has reached when the iterations
are used up: the state and the world when the loop is left, or the state and
the world it is blocked in (`running` still set). -/
def wait_loop_reach : List (List LoopEvent) → ContextState → World → ContextState × World
  | [], state, w => (state, w)
  | ready :: rest, state, w =>
    if state.running then
      let r := g_main_context_iteration state.mainctx true ready state w
      wait_loop_reach rest r.1 r.2
    else (state, w)

/-- Lines 112-148 again, keeping the execution of a call that does not return. -/
def sysroot_lock_execution (env : LockEnv) : LockExecution :=
  let w := World.start.emit (.context_new env.ctx)
  let state : ContextState := context_state_init env.ctx
  let w := w.emit (.push_thread_default state.mainctx)
  let w := w.emit .try_lock
  match env.try_lock with
  | .error e => .returned (sysroot_lock_out false (some e) state w)
  | .ok acquired =>
    let w := { w with lock_held := acquired }
    if !acquired then
      let w := w.emit (.timeout_source_new_seconds 3)
      let w := w.emit .source_set_callback
      let w := { w.emit (.source_attach state.mainctx) with timeout_attached := true }
      let w := w.emit .source_unref
      let r := on_sysroot_lock_timeout state w
      let w := { r.2.2.emit .lock_async with async_pending := true }
      let p := wait_loop_reach env.schedule r.2.1 w
      if p.1.running then .blocked p.1 p.2
      else .returned (sysroot_lock_out true none p.1 p.2)
    else
      .returned (sysroot_lock_out true none state w)

/-- The invariant of the wait loop, relative to the trace `base` the loop was
entered with: the context field is the private context, `running` is set as
long as the asynchronous request is outstanding, and what has been done since
`base` are loop effects, among them a store to `running` (followed by the
wake-up) exactly if the request has completed. -/
def LoopInv (ctx : Nat) (base : List Effect) (state : ContextState) (w : World) : Prop :=
  state.mainctx = ctx ∧ state.running = w.async_pending ∧
    ∃ t, w.trace = base ++ t ∧ (∀ e ∈ t, loop_effect ctx e = true) ∧
      completion_effects t
        = (if w.async_pending then [] else [.store_running false, .wakeup ctx])

/-! ## Deployment lookup by index -/

/-- For an index that passed the negative check, the conversion to `unsigned int`
keeps its value. -/
theorem to_guint_of_nonneg (index : Int) (h0 : 0 ≤ index) (h1 : index ≤ INT_MAX) :
    to_guint index = index.toNat := by
  unfold to_guint
  unfold INT_MAX at h1
  omega

/-- C6.  For every deployment list and every index of type `int` (only the upper
bound `INT_MAX` of the type is used), `ot_admin_get_indexed_deployment` fails,
with a `G_IO_ERROR_NOT_FOUND` error, exactly when `index < 0` or `index >= len`;
otherwise it returns the deployment at position `index` (and never reads outside
the array); and for every index that passed the negative check the comparison
made on `unsigned int` agrees with the comparison of the mathematical values. -/
theorem indexed_deployment_spec {D : Type} (sysroot : OstreeSysroot D) (index : Int)
    (hmax : index ≤ INT_MAX) :
    ((∃ e, ot_admin_get_indexed_deployment sysroot index = .failed e
          ∧ e.domain = G_IO_ERROR ∧ e.code = G_IO_ERROR_NOT_FOUND)
        ↔ (index < 0 ∨ index ≥ (sysroot.deployments.length : Int)))
    ∧ ((∃ e, ot_admin_get_indexed_deployment sysroot index = .failed e)
        ↔ (index < 0 ∨ index ≥ (sysroot.deployments.length : Int)))
    ∧ (¬ (index < 0 ∨ index ≥ (sysroot.deployments.length : Int)) →
        ∃ h : index.toNat < sysroot.deployments.length,
          ot_admin_get_indexed_deployment sysroot index
            = .deployment (sysroot.deployments.get ⟨index.toNat, h⟩))
    ∧ ot_admin_get_indexed_deployment sysroot index ≠ .invalid_read
    ∧ (0 ≤ index →
        (to_guint index ≥ sysroot.deployments.length
          ↔ index ≥ (sysroot.deployments.length : Int))) := by
  have hconv : 0 ≤ index →
      (to_guint index ≥ sysroot.deployments.length
        ↔ index ≥ (sysroot.deployments.length : Int)) := by
    intro h0
    rw [to_guint_of_nonneg index h0 hmax]
    omega
  by_cases hneg : index < 0
  · have hres : ot_admin_get_indexed_deployment sysroot index
        = .failed ⟨G_IO_ERROR, G_IO_ERROR_NOT_FOUND, "Invalid index " ++ toString index⟩ := by
      simp [ot_admin_get_indexed_deployment, hneg]
    refine ⟨?_, ?_, ?_, ?_, hconv⟩
    · exact ⟨fun _ => Or.inl hneg, fun _ => ⟨_, hres, rfl, rfl⟩⟩
    · exact ⟨fun _ => Or.inl hneg, fun _ => ⟨_, hres⟩⟩
    · intro h; exact absurd (Or.inl hneg) h
    · rw [hres]; exact fun h => by cases h
  · have h0 : 0 ≤ index := by omega
    by_cases hge : to_guint index ≥ sysroot.deployments.length
    · have hres : ot_admin_get_indexed_deployment sysroot index
          = .failed ⟨G_IO_ERROR, G_IO_ERROR_NOT_FOUND,
              "Out of range deployment index " ++ toString index ++ ", expected < "
                ++ toString (guint_as_int sysroot.deployments.length)⟩ := by
        simp [ot_admin_get_indexed_deployment, hneg, hge]
      have hge' := (hconv h0).1 hge
      refine ⟨?_, ?_, ?_, ?_, hconv⟩
      · exact ⟨fun _ => Or.inr hge', fun _ => ⟨_, hres, rfl, rfl⟩⟩
      · exact ⟨fun _ => Or.inr hge', fun _ => ⟨_, hres⟩⟩
      · intro h; exact absurd (Or.inr hge') h
      · rw [hres]; exact fun h => by cases h
    · have hlt : index.toNat < sysroot.deployments.length := by
        rw [to_guint_of_nonneg index h0 hmax] at hge
        omega
      have hres : ot_admin_get_indexed_deployment sysroot index
          = .deployment (sysroot.deployments.get ⟨index.toNat, hlt⟩) := by
        simp [ot_admin_get_indexed_deployment, hneg, hge, List.getElem?_eq_getElem hlt]
      have hnot : ¬ (index < 0 ∨ index ≥ (sysroot.deployments.length : Int)) := by
        intro h
        rcases h with h | h
        · exact hneg h
        · exact hge ((hconv h0).2 h)
      refine ⟨?_, ?_, ?_, ?_, hconv⟩
      · constructor
        · rintro ⟨e, he, _⟩
          rw [hres] at he
          cases he
        · intro h; exact absurd h hnot
      · constructor
        · rintro ⟨e, he⟩
          rw [hres] at he
          cases he
        · intro h; exact absurd h hnot
      · intro _; exact ⟨hlt, hres⟩
      · rw [hres]; exact fun h => by cases h

/-- C6, at a list of length three: index 1 gives the second element and is no
failure. -/
theorem indexed_deployment_spec_witness :
    (1 : Int) ≤ INT_MAX
    ∧ ot_admin_get_indexed_deployment (⟨["a", "b", "c"], none⟩ : OstreeSysroot String) 1
        = .deployment "b"
    ∧ ¬ (∃ e, ot_admin_get_indexed_deployment (⟨["a", "b", "c"], none⟩ : OstreeSysroot String) 1
        = .failed e) := by
  have h2 : (1 : Int) ≤ INT_MAX := by decide
  have key := indexed_deployment_spec (⟨["a", "b", "c"], none⟩ : OstreeSysroot String) 1 h2
  refine ⟨h2, rfl, ?_⟩
  intro h
  have := key.2.1.1 h
  simp at this

/-! ## Version metadata -/

/-- Looking up a key that no entry carries finds nothing. -/
theorem lookup_value_absent (entries : List (String × GVariantValue)) (key : String)
    (h : ∀ p ∈ entries, p.1 ≠ key) : g_variant_lookup_value entries key = none := by
  induction entries with
  | nil => rfl
  | cons p rest ih =>
    obtain ⟨k, v⟩ := p
    have hk : k ≠ key := h (k, v) (List.mem_cons_self _ _)
    simp only [g_variant_lookup_value, if_neg hk]
    exact ih (fun q hq => h q (List.mem_cons_of_mem _ hq))

/-- Looking up a key finds the value of the first entry that carries it. -/
theorem lookup_value_first (before after : List (String × GVariantValue)) (key : String)
    (v : GVariantValue) (h : ∀ p ∈ before, p.1 ≠ key) :
    g_variant_lookup_value (before ++ (key, v) :: after) key = some v := by
  induction before with
  | nil => simp [g_variant_lookup_value]
  | cons p rest ih =>
    obtain ⟨k, w⟩ := p
    have hk : k ≠ key := h (k, w) (List.mem_cons_self _ _)
    simp only [List.cons_append, g_variant_lookup_value, if_neg hk]
    exact ih (fun q hq => h q (List.mem_cons_of_mem _ hq))

/-- C7.  For a two-element commit record whose first element is the metadata
map: when the first entry under the key "version" holds the string `s` the
result is `s`; when no entry has the key "version" the result is `NULL` (and
the call does not fail); and the map with the single entry "version": "33.1"
yields "33.1". -/
theorem checksum_version_spec (metadata : List (String × GVariantValue)) (body : GVariantChild) :
    (∀ (before after : List (String × GVariantValue)) (s : String),
        metadata = before ++ ("version", .str s) :: after →
        (∀ p ∈ before, p.1 ≠ "version") →
        ot_admin_checksum_version [.vardict metadata, body] = .version s)
    ∧ ((∀ p ∈ metadata, p.1 ≠ "version") →
        ot_admin_checksum_version [.vardict metadata, body] = .null)
    ∧ ot_admin_checksum_version [.vardict [("version", .str "33.1")], body] = .version "33.1" := by
  refine ⟨?_, ?_, ?_⟩
  · intro before after s hmd hbefore
    have hl := lookup_value_first before after "version" (.str s) hbefore
    rw [← hmd] at hl
    simp [ot_admin_checksum_version, g_variant_get_child_value, g_variant_lookup_string,
      OSTREE_COMMIT_META_KEY_VERSION, hl]
  · intro habsent
    have hl := lookup_value_absent metadata "version" habsent
    simp [ot_admin_checksum_version, g_variant_get_child_value, g_variant_lookup_string,
      OSTREE_COMMIT_META_KEY_VERSION, hl]
  · simp [ot_admin_checksum_version, g_variant_get_child_value, g_variant_lookup_string,
      OSTREE_COMMIT_META_KEY_VERSION, g_variant_lookup_value]

/-! ## Reboot -/

/-- C8.  Without a booted deployment `ot_admin_execve_reboot` returns `TRUE`,
leaves the error unset and never calls `execlp`, whatever the call would have
done. -/
theorem reboot_unbooted_noop {D : Type} (sysroot : OstreeSysroot D) (execlp : ExecOutcome)
    (h : sysroot.booted_deployment = none) :
    (ot_admin_execve_reboot sysroot execlp).outcome = .returned true none
    ∧ (ot_admin_execve_reboot sysroot execlp).exec_calls = [] := by
  simp [ot_admin_execve_reboot, h]

/-- C8, at a sysroot with two deployments, none of them booted, where the reboot
command would have succeeded. -/
theorem reboot_unbooted_noop_witness :
    (⟨["a", "b"], none⟩ : OstreeSysroot String).booted_deployment = none
    ∧ (ot_admin_execve_reboot (⟨["a", "b"], none⟩ : OstreeSysroot String) .image_replaced).outcome
        = .returned true none
    ∧ (ot_admin_execve_reboot (⟨["a", "b"], none⟩ : OstreeSysroot String)
        .image_replaced).exec_calls = [] :=
  ⟨rfl, reboot_unbooted_noop (⟨["a", "b"], none⟩ : OstreeSysroot String) .image_replaced rfl⟩

/-- C9.  With a booted deployment `ot_admin_execve_reboot` calls `execlp` exactly
once, for `systemctl reboot`; when that call returns a negative value the
function returns `FALSE` with an error whose message starts with the context
`execve(systemctl reboot)`; and it returns `FALSE` in no other case. -/
theorem reboot_booted_spec {D : Type} (sysroot : OstreeSysroot D) (d : D) (execlp : ExecOutcome)
    (h : sysroot.booted_deployment = some d) :
    (ot_admin_execve_reboot sysroot execlp).exec_calls
        = [⟨"systemctl", ["systemctl", "reboot"]⟩]
    ∧ (∀ rc errsv, execlp = .returned rc errsv → rc < 0 →
        (ot_admin_execve_reboot sysroot execlp).outcome
          = .returned false
              (some ⟨G_IO_ERROR, errsv.io_code, "execve(systemctl reboot)" ++ ": " ++ errsv.text⟩))
    ∧ ((∃ err, (ot_admin_execve_reboot sysroot execlp).outcome = .returned false err)
        ↔ ∃ rc errsv, execlp = .returned rc errsv ∧ rc < 0) := by
  cases execlp with
  | image_replaced =>
    simp [ot_admin_execve_reboot, h]
  | returned rc errsv =>
    by_cases hrc : rc < 0
    · simp [ot_admin_execve_reboot, h, hrc, glnx_throw_errno_prefix]
    · simp [ot_admin_execve_reboot, h, hrc]
      omega

/-- C9, at a booted sysroot where `execlp` fails with `ENOENT`. -/
theorem reboot_booted_spec_witness :
    (⟨["a"], some "a"⟩ : OstreeSysroot String).booted_deployment = some "a"
    ∧ (ot_admin_execve_reboot (⟨["a"], some "a"⟩ : OstreeSysroot String)
        (.returned (-1) ⟨1, "No such file or directory"⟩)).exec_calls
      = [⟨"systemctl", ["systemctl", "reboot"]⟩]
    ∧ (ot_admin_execve_reboot (⟨["a"], some "a"⟩ : OstreeSysroot String)
        (.returned (-1) ⟨1, "No such file or directory"⟩)).outcome
      = .returned false (some ⟨G_IO_ERROR, 1,
          "execve(systemctl reboot)" ++ ": " ++ "No such file or directory"⟩) :=
  ⟨rfl,
    (reboot_booted_spec (⟨["a"], some "a"⟩ : OstreeSysroot String) "a"
      (.returned (-1) ⟨1, "No such file or directory"⟩) rfl).1,
    (reboot_booted_spec (⟨["a"], some "a"⟩ : OstreeSysroot String) "a"
      (.returned (-1) ⟨1, "No such file or directory"⟩) rfl).2.1 (-1)
      ⟨1, "No such file or directory"⟩ rfl (by decide)⟩

/-! ## The sysroot lock: uncontended and failing try-lock -/

/-- C3.  When `ostree_sysroot_try_lock` succeeds with `acquired = TRUE` the call
returns `TRUE` without an error, holding the lock; apart from creating, pushing,
popping and releasing the private context it only calls the try-lock: no
timeout source is created or attached, no message is printed, no asynchronous
request is issued and no iteration of the loop is run, whatever the loop would
have found ready. -/
theorem sysroot_lock_uncontended (ctx : Nat) (schedule : List (List LoopEvent)) :
    ∃ r, ot_admin_sysroot_lock ⟨ctx, .ok true, schedule⟩ = some r
      ∧ r.ret = true ∧ r.error = none ∧ r.world.lock_held = true
      ∧ r.world.trace = [.context_new ctx, .push_thread_default ctx, .try_lock,
          .pop_thread_default ctx, .context_unref ctx]
      ∧ wait_setup r.world.trace = []
      ∧ r.world.timeout_attached = false
      ∧ r.world.async_pending = false
      ∧ count_messages r.world.trace = 0
      ∧ (∀ text, Effect.print text ∉ r.world.trace)
      ∧ count_iterations r.world.trace = 0 := by
  refine ⟨_, rfl, rfl, rfl, rfl, rfl, rfl, rfl, rfl, rfl, ?_, rfl⟩
  intro text h
  simp [sysroot_lock_out, World.emit, World.start, context_state_init] at h

/-- C4.  When `ostree_sysroot_try_lock` fails with the error `e` the call returns
`FALSE` with exactly `e` as its error; the try-lock is called once and, apart
from creating, pushing, popping and releasing the private context, nothing else
is: no timeout source, no message, no asynchronous request, no iteration of the
loop. -/
theorem sysroot_lock_try_error (ctx : Nat) (e : GError) (schedule : List (List LoopEvent)) :
    ∃ r, ot_admin_sysroot_lock ⟨ctx, .error e, schedule⟩ = some r
      ∧ r.ret = false ∧ r.error = some e ∧ r.world.lock_held = false
      ∧ r.world.trace = [.context_new ctx, .push_thread_default ctx, .try_lock,
          .pop_thread_default ctx, .context_unref ctx]
      ∧ count_try_lock r.world.trace = 1
      ∧ wait_setup r.world.trace = []
      ∧ r.world.timeout_attached = false
      ∧ r.world.async_pending = false
      ∧ count_messages r.world.trace = 0
      ∧ (∀ text, Effect.print text ∉ r.world.trace)
      ∧ count_iterations r.world.trace = 0 := by
  refine ⟨_, rfl, rfl, rfl, rfl, rfl, rfl, rfl, rfl, rfl, rfl, ?_, rfl⟩
  intro text h
  simp [sysroot_lock_out, World.emit, World.start, context_state_init] at h

/-! ## The sysroot lock: the wait loop on a given schedule -/

/-- Dispatching two batches of ready sources one after the other. -/
theorem dispatch_all_append (a b : List LoopEvent) (state : ContextState) (w : World) :
    dispatch_all (a ++ b) state w
      = dispatch_all b (dispatch_all a state w).1 (dispatch_all a state w).2 := by
  induction a generalizing state w with
  | nil => rfl
  | cons ev rest ih => exact ih (dispatch state w ev).1 (dispatch state w ev).2

/-- While the timeout source is attached, `n` firings print `n` messages and
change nothing else. -/
theorem dispatch_all_timeouts (n : Nat) (state : ContextState) (w : World)
    (hatt : w.timeout_attached = true) :
    dispatch_all (List.replicate n .timeout_ready) state w
      = (state, { w with trace := w.trace ++ List.replicate n (.print WAITING_MESSAGE) }) := by
  induction n generalizing w with
  | zero => simp [dispatch_all]
  | succ k ih =>
    have hstep : dispatch state w .timeout_ready
        = (state, { w with trace := w.trace ++ [.print WAITING_MESSAGE] }) := by
      obtain ⟨t, a, p, l⟩ := w
      simp only at hatt
      subst hatt
      simp [dispatch, on_sysroot_lock_timeout, World.emit]
    have hrest := ih { w with trace := w.trace ++ [.print WAITING_MESSAGE] } hatt
    simp only [List.replicate_succ, dispatch_all, hstep, hrest]
    simp [List.append_assoc]

/-- An iteration that finds only the timeout source ready, `n` times. -/
theorem iteration_timeouts (ctx n : Nat) (state : ContextState) (w : World)
    (hatt : w.timeout_attached = true) :
    g_main_context_iteration ctx true (List.replicate n .timeout_ready) state w
      = (state, { w with trace := w.trace
          ++ (.iteration ctx true :: List.replicate n (.print WAITING_MESSAGE)) }) := by
  unfold g_main_context_iteration
  rw [dispatch_all_timeouts n state _ (by simpa [World.emit] using hatt)]
  simp [World.emit, List.append_assoc]

/-- The iteration in which the asynchronous request completes after `m` firings
of the timeout source. -/
theorem iteration_completion (ctx m : Nat) (res : Option GError) (state : ContextState)
    (w : World) (hatt : w.timeout_attached = true) (hpend : w.async_pending = true) :
    g_main_context_iteration ctx true
        (List.replicate m .timeout_ready ++ [.lock_finished res]) state w
      = ({ state with running := false },
         { w with
            trace := w.trace ++ (.iteration ctx true :: List.replicate m (.print WAITING_MESSAGE))
              ++ [.store_running false, .wakeup state.mainctx],
            async_pending := false,
            lock_held := w.lock_held || res.isNone }) := by
  unfold g_main_context_iteration
  rw [dispatch_all_append, dispatch_all_timeouts m state _ (by simpa [World.emit] using hatt)]
  simp [dispatch_all, dispatch, on_sysroot_lock_acquired, World.emit, hpend, List.append_assoc]

/-- The loop runs through iterations that only find the timeout source ready. -/
theorem wait_loop_timers (firings : List Nat) (rest : List (List LoopEvent))
    (state : ContextState) (w : World) (hrun : state.running = true)
    (hatt : w.timeout_attached = true) :
    wait_loop (timer_schedule firings ++ rest) state w
      = wait_loop rest state
          { w with trace := w.trace ++ timer_iterations state.mainctx firings } := by
  induction firings generalizing w with
  | nil => simp [timer_schedule, timer_iterations]
  | cons n more ih =>
    have hstep := iteration_timeouts state.mainctx n state w hatt
    have hrest := ih { w with trace := w.trace
      ++ (.iteration state.mainctx true :: List.replicate n (.print WAITING_MESSAGE)) } hatt
    show wait_loop (List.replicate n .timeout_ready :: (timer_schedule more ++ rest)) state w = _
    simp only [wait_loop, hrun, if_true, hstep, hrest]
    simp [timer_iterations, List.append_assoc]

/-- Once `running` is clear the loop is left at once. -/
theorem wait_loop_stopped (schedule : List (List LoopEvent)) (state : ContextState) (w : World)
    (hrun : state.running = false) : wait_loop schedule state w = some (state, w) := by
  cases schedule <;> simp [wait_loop, hrun]

/-- Messages printed by iterations that only find the timeout source ready. -/
theorem count_messages_timer_iterations (ctx : Nat) (firings : List Nat) :
    count_messages (timer_iterations ctx firings) = firings.sum := by
  induction firings with
  | nil => rfl
  | cons n more ih =>
    unfold count_messages at ih ⊢
    simp only [timer_iterations, List.filter_cons, List.filter_append, List.length_append,
      List.sum_cons, ih]
    simp [List.filter_replicate, ih]

/-- Iterations run by a schedule that only finds the timeout source ready. -/
theorem count_iterations_timer_iterations (ctx : Nat) (firings : List Nat) :
    count_iterations (timer_iterations ctx firings) = firings.length := by
  induction firings with
  | nil => rfl
  | cons n more ih =>
    unfold count_iterations at ih ⊢
    simp only [timer_iterations, List.filter_cons, List.filter_append, List.length_append, ih]
    simp [List.filter_replicate]
    omega

/-- The loop on a schedule of timer firings followed by the completion: it stops
in the iteration that dispatches the completion, whatever would follow. -/
theorem wait_loop_contended (firings : List Nat) (m : Nat) (res : Option GError)
    (extra : List (List LoopEvent)) (state : ContextState) (w : World)
    (hrun : state.running = true) (hatt : w.timeout_attached = true)
    (hpend : w.async_pending = true) :
    wait_loop (timer_schedule firings
        ++ (List.replicate m .timeout_ready ++ [.lock_finished res]) :: extra) state w
      = some ({ state with running := false },
          { w with
            trace := w.trace ++ timer_iterations state.mainctx firings
              ++ (.iteration state.mainctx true :: List.replicate m (.print WAITING_MESSAGE))
              ++ [.store_running false, .wakeup state.mainctx],
            async_pending := false,
            lock_held := w.lock_held || res.isNone }) := by
  rw [wait_loop_timers firings _ state w hrun hatt]
  have hstep := iteration_completion state.mainctx m res state
    { w with trace := w.trace ++ timer_iterations state.mainctx firings } hatt hpend
  simp only [wait_loop, hrun, if_true, hstep]
  rw [wait_loop_stopped _ _ _ rfl]

/-- What the call has done on the contended path when it enters the loop, and
the state it enters the loop in. -/
theorem sysroot_lock_contended_unfold (ctx : Nat) (schedule : List (List LoopEvent)) :
    ot_admin_sysroot_lock ⟨ctx, .ok false, schedule⟩
      = (wait_loop schedule (context_state_init ctx)
            ⟨contended_header ctx, true, true, false⟩).map
          (fun r => sysroot_lock_out true none r.1 r.2) := by
  simp only [ot_admin_sysroot_lock, on_sysroot_lock_timeout, World.emit, World.start,
    contended_header, context_state_init, Bool.not_false, if_true, List.nil_append,
    List.cons_append]
  cases wait_loop schedule ⟨ctx, true⟩ _ <;> rfl

/-- Messages in a trace put together from two parts. -/
theorem count_messages_append (a b : List Effect) :
    count_messages (a ++ b) = count_messages a + count_messages b := by
  simp [count_messages, List.filter_append]

/-- Iterations in a trace put together from two parts. -/
theorem count_iterations_append (a b : List Effect) :
    count_iterations (a ++ b) = count_iterations a + count_iterations b := by
  simp [count_iterations, List.filter_append]

/-- Messages in a run of `n` progress messages. -/
theorem count_messages_replicate (n : Nat) :
    count_messages (List.replicate n (.print WAITING_MESSAGE)) = n := by
  simp [count_messages, List.filter_replicate]

/-- A run of progress messages holds no iteration. -/
theorem count_iterations_replicate (n : Nat) :
    count_iterations (List.replicate n (.print WAITING_MESSAGE)) = 0 := by
  simp [count_iterations, List.filter_replicate]

/-- C2.  Contended acquisition.  Let the try-lock succeed with `acquired = FALSE`
and let the private loop dispatch `k` timer firings and then the completion
callback: `firings` gives the number of firings dispatched by each iteration
before the last, the last iteration dispatches `m` more and then the
completion (with any result `res`), so `k = firings.sum + m`; `extra` is what
later iterations would find.  Then the call returns `TRUE`; it prints exactly
`k + 1` messages; the first message is printed before the asynchronous request
is issued and before any iteration; and the iteration that dispatches the
completion is the last one run (`firings.length + 1` iterations in all, none
of `extra`). -/
theorem sysroot_lock_contended (ctx : Nat) (firings : List Nat) (m : Nat)
    (res : Option GError) (extra : List (List LoopEvent)) :
    ∃ r, ot_admin_sysroot_lock ⟨ctx, .ok false, timer_schedule firings
            ++ (List.replicate m .timeout_ready ++ [.lock_finished res]) :: extra⟩ = some r
      ∧ r.ret = true ∧ r.error = none
      ∧ r.world.trace
          = [.context_new ctx, .push_thread_default ctx, .try_lock,
              .timeout_source_new_seconds 3, .source_set_callback, .source_attach ctx,
              .source_unref, .print WAITING_MESSAGE, .lock_async]
            ++ timer_iterations ctx firings
            ++ (.iteration ctx true :: List.replicate m (.print WAITING_MESSAGE))
            ++ [.store_running false, .wakeup ctx, .pop_thread_default ctx, .context_unref ctx]
      ∧ count_messages r.world.trace = (firings.sum + m) + 1
      ∧ count_iterations r.world.trace = firings.length + 1 := by
  have hloop := wait_loop_contended firings m res extra (context_state_init ctx)
    ⟨contended_header ctx, true, true, false⟩ rfl rfl rfl
  have htrace : (sysroot_lock_out true none
        ({ context_state_init ctx with running := false } : ContextState)
        ({ trace := contended_header ctx ++ timer_iterations ctx firings
              ++ (.iteration ctx true :: List.replicate m (.print WAITING_MESSAGE))
              ++ [.store_running false, .wakeup ctx],
           timeout_attached := true, async_pending := false,
           lock_held := false || res.isNone } : World)).world.trace
      = [.context_new ctx, .push_thread_default ctx, .try_lock,
              .timeout_source_new_seconds 3, .source_set_callback, .source_attach ctx,
              .source_unref, .print WAITING_MESSAGE, .lock_async]
            ++ timer_iterations ctx firings
            ++ (.iteration ctx true :: List.replicate m (.print WAITING_MESSAGE))
            ++ [.store_running false, .wakeup ctx, .pop_thread_default ctx,
                .context_unref ctx] := by
    simp [sysroot_lock_out, World.emit, contended_header, context_state_init,
      List.append_assoc]
  refine ⟨_, ?_, ?_, ?_, htrace, ?_, ?_⟩
  · rw [sysroot_lock_contended_unfold, hloop]
    rfl
  · rfl
  · rfl
  · rw [htrace]
    simp only [count_messages_append, count_messages_timer_iterations]
    have h1 : count_messages [.context_new ctx, .push_thread_default ctx, .try_lock,
        .timeout_source_new_seconds 3, .source_set_callback, .source_attach ctx,
        .source_unref, .print WAITING_MESSAGE, .lock_async] = 1 := rfl
    have h2 : count_messages (.iteration ctx true :: List.replicate m (.print WAITING_MESSAGE))
        = m := by
      have hm := count_messages_replicate m
      unfold count_messages at hm ⊢
      simp only [List.filter_cons]
      simp
    have h3 : count_messages [.store_running false, .wakeup ctx, .pop_thread_default ctx,
        .context_unref ctx] = 0 := rfl
    rw [h1, h2, h3]
    omega
  · rw [htrace]
    simp only [count_iterations_append, count_iterations_timer_iterations]
    have h1 : count_iterations [.context_new ctx, .push_thread_default ctx, .try_lock,
        .timeout_source_new_seconds 3, .source_set_callback, .source_attach ctx,
        .source_unref, .print WAITING_MESSAGE, .lock_async] = 0 := rfl
    have h2 : count_iterations (.iteration ctx true :: List.replicate m (.print WAITING_MESSAGE))
        = 1 := by
      have := count_iterations_replicate m
      unfold count_iterations at this ⊢
      simp only [List.filter_cons]
      simp [this]
    have h3 : count_iterations [.store_running false, .wakeup ctx, .pop_thread_default ctx,
        .context_unref ctx] = 0 := rfl
    rw [h1, h2, h3]
    omega

/-! ## The sysroot lock: the wait loop on any schedule -/

/-- Dispatching one ready source keeps the loop invariant. -/
theorem dispatch_inv (ctx : Nat) (base : List Effect) (state : ContextState) (w : World)
    (ev : LoopEvent) (h : LoopInv ctx base state w) :
    LoopInv ctx base (dispatch state w ev).1 (dispatch state w ev).2 := by
  obtain ⟨hctx, hrun, t, ht, hall, hcomp⟩ := h
  cases ev with
  | timeout_ready =>
    by_cases hatt : w.timeout_attached = true
    · simp only [dispatch, hatt, if_true, on_sysroot_lock_timeout, World.emit]
      refine ⟨hctx, hrun, t ++ [.print WAITING_MESSAGE], ?_, ?_, ?_⟩
      · simp [ht, List.append_assoc]
      · intro e he
        rcases List.mem_append.1 he with he | he
        · exact hall e he
        · simp only [List.mem_singleton] at he
          subst he
          simp [loop_effect]
      · simpa [completion_effects, List.filter_append] using hcomp
    · simp only [dispatch, hatt]
      exact ⟨hctx, hrun, t, ht, hall, hcomp⟩
  | lock_finished failure =>
    by_cases hpend : w.async_pending = true
    · simp only [dispatch, hpend, if_true, on_sysroot_lock_acquired, World.emit]
      refine ⟨hctx, rfl, t ++ [.store_running false, .wakeup state.mainctx], ?_, ?_, ?_⟩
      · simp [ht, List.append_assoc]
      · intro e he
        rcases List.mem_append.1 he with he | he
        · exact hall e he
        · simp only [List.mem_cons, List.mem_singleton, List.not_mem_nil, or_false] at he
          rcases he with he | he <;> subst he <;> simp [loop_effect, hctx]
      · rw [hpend] at hcomp
        simp only [if_true] at hcomp
        unfold completion_effects at hcomp ⊢
        simp [List.filter_append, hcomp, hctx]
    · simp only [dispatch, hpend]
      exact ⟨hctx, hrun, t, ht, hall, hcomp⟩

/-- Dispatching the ready sources of an iteration keeps the loop invariant. -/
theorem dispatch_all_inv (ctx : Nat) (base : List Effect) (ready : List LoopEvent)
    (state : ContextState) (w : World) (h : LoopInv ctx base state w) :
    LoopInv ctx base (dispatch_all ready state w).1 (dispatch_all ready state w).2 := by
  induction ready generalizing state w with
  | nil => exact h
  | cons ev rest ih => exact ih _ _ (dispatch_inv ctx base state w ev h)

/-- An iteration of the private context keeps the loop invariant. -/
theorem iteration_inv (ctx : Nat) (base : List Effect) (ready : List LoopEvent)
    (state : ContextState) (w : World) (h : LoopInv ctx base state w) :
    LoopInv ctx base (g_main_context_iteration ctx true ready state w).1
      (g_main_context_iteration ctx true ready state w).2 := by
  unfold g_main_context_iteration
  apply dispatch_all_inv
  obtain ⟨hctx, hrun, t, ht, hall, hcomp⟩ := h
  refine ⟨hctx, hrun, t ++ [.iteration ctx true], ?_, ?_, ?_⟩
  · simp [World.emit, ht, List.append_assoc]
  · intro e he
    rcases List.mem_append.1 he with he | he
    · exact hall e he
    · simp only [List.mem_singleton] at he
      subst he
      simp [loop_effect]
  · simpa [completion_effects, List.filter_append, World.emit] using hcomp

/-- When the loop is left, the invariant holds and `running` is clear. -/
theorem wait_loop_inv (ctx : Nat) (base : List Effect) (schedule : List (List LoopEvent))
    (state state' : ContextState) (w w' : World) (h : LoopInv ctx base state w)
    (hret : wait_loop schedule state w = some (state', w')) :
    LoopInv ctx base state' w' ∧ state'.running = false := by
  induction schedule generalizing state w with
  | nil =>
    by_cases hrun : state.running = true
    · simp [wait_loop, hrun] at hret
    · simp only [wait_loop, hrun] at hret
      simp only [Bool.false_eq_true, if_false, Option.some.injEq, Prod.mk.injEq] at hret
      obtain ⟨rfl, rfl⟩ := hret
      exact ⟨h, by simpa using hrun⟩
  | cons ready rest ih =>
    by_cases hrun : state.running = true
    · simp only [wait_loop, hrun, if_true] at hret
      have hctx : state.mainctx = ctx := h.1
      rw [hctx] at hret
      exact ih _ _ (iteration_inv ctx base ready state w h) hret
    · simp only [wait_loop, hrun] at hret
      simp only [Bool.false_eq_true, if_false, Option.some.injEq, Prod.mk.injEq] at hret
      obtain ⟨rfl, rfl⟩ := hret
      exact ⟨h, by simpa using hrun⟩

/-- A loop that never finds the completion ready is never left. -/
theorem wait_loop_blocked (schedule : List (List LoopEvent)) (state : ContextState) (w : World)
    (hrun : state.running = true)
    (honly : ∀ ready ∈ schedule, ∀ ev ∈ ready, ev = LoopEvent.timeout_ready) :
    wait_loop schedule state w = none := by
  have hdisp : ∀ (ready : List LoopEvent) (w : World),
      (∀ ev ∈ ready, ev = LoopEvent.timeout_ready) → (dispatch_all ready state w).1 = state := by
    intro ready
    induction ready with
    | nil => intro w _; rfl
    | cons ev rest ih =>
      intro w hall
      have hev : ev = .timeout_ready := hall ev (List.mem_cons_self _ _)
      subst hev
      have hst : (dispatch state w .timeout_ready).1 = state := by
        by_cases hatt : w.timeout_attached = true <;>
          simp [dispatch, hatt, on_sysroot_lock_timeout]
      show (dispatch_all rest (dispatch state w .timeout_ready).1 _).1 = state
      rw [hst]
      exact ih _ (fun e he => hall e (List.mem_cons_of_mem _ he))
  induction schedule generalizing w with
  | nil => simp [wait_loop, hrun]
  | cons ready rest ih =>
    simp only [wait_loop, hrun, if_true]
    have hst : (g_main_context_iteration state.mainctx true ready state w).1 = state :=
      hdisp ready _ (honly ready (List.mem_cons_self _ _))
    rw [hst]
    exact ih _ (fun r hr => honly r (List.mem_cons_of_mem _ hr))

/-- Shape of every contended call that returns: the header, loop effects holding
exactly one store to `running` with its wake-up, then the pop and the release
of the private context. -/
theorem sysroot_lock_contended_shape (ctx : Nat) (schedule : List (List LoopEvent))
    (r : LockResult) (hret : ot_admin_sysroot_lock ⟨ctx, .ok false, schedule⟩ = some r) :
    r.ret = true ∧ r.error = none ∧ r.state = ⟨ctx, false⟩ ∧
      ∃ t, r.world.trace = contended_header ctx ++ t
            ++ [.pop_thread_default ctx, .context_unref ctx]
        ∧ (∀ e ∈ t, loop_effect ctx e = true)
        ∧ completion_effects t = [.store_running false, .wakeup ctx] := by
  rw [sysroot_lock_contended_unfold] at hret
  cases hloop : wait_loop schedule (context_state_init ctx)
      ⟨contended_header ctx, true, true, false⟩ with
  | none => simp [hloop] at hret
  | some p =>
    obtain ⟨state', w'⟩ := p
    simp only [hloop, Option.map_some', Option.some.injEq] at hret
    have hinit : LoopInv ctx (contended_header ctx) (context_state_init ctx)
        ⟨contended_header ctx, true, true, false⟩ :=
      ⟨rfl, rfl, [], by simp, by simp, by simp [completion_effects]⟩
    obtain ⟨⟨hctx, hrun, t, ht, hall, hcomp⟩, hstop⟩ :=
      wait_loop_inv ctx _ schedule _ state' _ w' hinit hloop
    have hpend : w'.async_pending = false := by rw [← hrun]; exact hstop
    subst hret
    refine ⟨rfl, rfl, ?_, t, ?_, hall, ?_⟩
    · obtain ⟨c, b⟩ := state'
      simp only at hctx hstop
      subst hctx hstop
      rfl
    · simp [sysroot_lock_out, World.emit, ht, hctx, List.append_assoc]
    · simpa [hpend] using hcomp

/-- Loop effects are no context lifecycle calls. -/
theorem context_lifecycle_loop_effects (ctx : Nat) (t : List Effect)
    (hall : ∀ e ∈ t, loop_effect ctx e = true) : context_lifecycle t = [] := by
  unfold context_lifecycle
  rw [List.filter_eq_nil_iff]
  intro e he
  have h := hall e he
  cases e <;> simp [loop_effect] at h ⊢

/-- Counting the stores to `running` among the completion effects counts them
all. -/
theorem count_stores_completion_effects (t : List Effect) :
    count_stores (completion_effects t) = count_stores t := by
  induction t with
  | nil => rfl
  | cons e rest ih =>
    unfold count_stores completion_effects at ih ⊢
    cases e <;> simp [List.filter_cons] at ih ⊢ <;> exact ih

/-- The completion effects of a contended trace are those of its loop part. -/
theorem completion_effects_contended (ctx : Nat) (t : List Effect) :
    completion_effects (contended_header ctx ++ t
        ++ [.pop_thread_default ctx, .context_unref ctx])
      = completion_effects t := by
  simp [completion_effects, contended_header, List.filter_append, List.filter_cons]

/-! ## The sysroot lock: cleanup, the `running` flag, success without the lock -/

/-- C5.  Cleanup invariant.  In every call that returns (try-lock error,
immediate acquisition, or acquisition after waiting, on any schedule of the
loop) the calls that concern the lifecycle of a main context are exactly:
create the private context, push it as the thread default, pop it, release
it, once each and in this order, all on the same context; the creation and
the push open the trace, and the pop and the release are the last two things
done before the value is returned. -/
theorem sysroot_lock_cleanup (env : LockEnv) (r : LockResult)
    (hret : ot_admin_sysroot_lock env = some r) :
    context_lifecycle r.world.trace
        = [.context_new env.ctx, .push_thread_default env.ctx,
            .pop_thread_default env.ctx, .context_unref env.ctx]
    ∧ ∃ body, r.world.trace
          = [.context_new env.ctx, .push_thread_default env.ctx] ++ body
            ++ [.pop_thread_default env.ctx, .context_unref env.ctx]
        ∧ context_lifecycle body = [] := by
  obtain ⟨ctx, try_lock, schedule⟩ := env
  cases try_lock with
  | error e =>
    have hr : r = sysroot_lock_out false (some e) (context_state_init ctx)
        ⟨[.context_new ctx, .push_thread_default ctx, .try_lock], false, false, false⟩ := by
      simpa [ot_admin_sysroot_lock, World.emit, World.start] using hret.symm
    subst hr
    exact ⟨rfl, [.try_lock], rfl, rfl⟩
  | ok acquired =>
    cases acquired with
    | true =>
      have hr : r = sysroot_lock_out true none (context_state_init ctx)
          ⟨[.context_new ctx, .push_thread_default ctx, .try_lock], false, false, true⟩ := by
        simpa [ot_admin_sysroot_lock, World.emit, World.start] using hret.symm
      subst hr
      exact ⟨rfl, [.try_lock], rfl, rfl⟩
    | false =>
      obtain ⟨_, _, _, t, ht, hall, _⟩ := sysroot_lock_contended_shape ctx schedule r hret
      have hlife := context_lifecycle_loop_effects ctx t hall
      refine ⟨?_, [.try_lock, .timeout_source_new_seconds 3, .source_set_callback,
          .source_attach ctx, .source_unref, .print WAITING_MESSAGE, .lock_async] ++ t, ?_, ?_⟩
      · simp only [ht]
        unfold context_lifecycle at hlife ⊢
        simp [contended_header, List.filter_append, List.filter_cons, hlife]
      · simp [ht, contended_header, List.append_assoc]
      · unfold context_lifecycle at hlife ⊢
        simp [List.filter_append, List.filter_cons, hlife]

/-- C5, at a contended call whose loop runs a timer iteration, an idle iteration
and the iteration of the completion. -/
theorem sysroot_lock_cleanup_witness :
    ∃ r, ot_admin_sysroot_lock
          ⟨7, .ok false, [[.timeout_ready], [], [.lock_finished none]]⟩ = some r
      ∧ context_lifecycle r.world.trace
        = [.context_new 7, .push_thread_default 7, .pop_thread_default 7, .context_unref 7] :=
  ⟨_, rfl, (sysroot_lock_cleanup ⟨7, .ok false, [[.timeout_ready], [], [.lock_finished none]]⟩
    _ rfl).1⟩

/-- The loop returns exactly when what it reaches has `running` clear, and then
it returns what it has reached. -/
theorem wait_loop_eq_reach (schedule : List (List LoopEvent)) (state : ContextState)
    (w : World) :
    wait_loop schedule state w
      = if (wait_loop_reach schedule state w).1.running then none
        else some (wait_loop_reach schedule state w) := by
  induction schedule generalizing state w with
  | nil =>
    by_cases hrun : state.running = true <;> simp [wait_loop, wait_loop_reach, hrun]
  | cons ready rest ih =>
    by_cases hrun : state.running = true
    · simp only [wait_loop, wait_loop_reach, hrun, if_true]
      exact ih _ _
    · simp [wait_loop, wait_loop_reach, hrun]

/-- What the loop reaches satisfies the loop invariant, blocked or not. -/
theorem wait_loop_reach_inv (ctx : Nat) (base : List Effect) (schedule : List (List LoopEvent))
    (state : ContextState) (w : World) (h : LoopInv ctx base state w) :
    LoopInv ctx base (wait_loop_reach schedule state w).1 (wait_loop_reach schedule state w).2 := by
  induction schedule generalizing state w with
  | nil => exact h
  | cons ready rest ih =>
    by_cases hrun : state.running = true
    · simp only [wait_loop_reach, hrun, if_true]
      have hctx : state.mainctx = ctx := h.1
      rw [hctx]
      exact ih _ _ (iteration_inv ctx base ready state w h)
    · simp only [wait_loop_reach, hrun]
      exact h

/-- The execution of a contended call, from the state the loop is entered in. -/
theorem sysroot_lock_execution_contended (ctx : Nat) (schedule : List (List LoopEvent)) :
    sysroot_lock_execution ⟨ctx, .ok false, schedule⟩
      = if (wait_loop_reach schedule (context_state_init ctx)
              ⟨contended_header ctx, true, true, false⟩).1.running then
          .blocked
            (wait_loop_reach schedule (context_state_init ctx)
              ⟨contended_header ctx, true, true, false⟩).1
            (wait_loop_reach schedule (context_state_init ctx)
              ⟨contended_header ctx, true, true, false⟩).2
        else
          .returned (sysroot_lock_out true none
            (wait_loop_reach schedule (context_state_init ctx)
              ⟨contended_header ctx, true, true, false⟩).1
            (wait_loop_reach schedule (context_state_init ctx)
              ⟨contended_header ctx, true, true, false⟩).2) := by
  simp only [sysroot_lock_execution, on_sysroot_lock_timeout, World.emit, World.start,
    contended_header, context_state_init, Bool.not_false, if_true, List.nil_append,
    List.cons_append]

/-- The call returns what its execution returns, and does not return when its
execution is blocked. -/
theorem sysroot_lock_execution_result (env : LockEnv) :
    ot_admin_sysroot_lock env = (sysroot_lock_execution env).result := by
  obtain ⟨ctx, try_lock, schedule⟩ := env
  cases try_lock with
  | error e => rfl
  | ok acquired =>
    cases acquired with
    | true => rfl
    | false =>
      rw [sysroot_lock_contended_unfold, sysroot_lock_execution_contended, wait_loop_eq_reach]
      by_cases hrun : (wait_loop_reach schedule (context_state_init ctx)
          ⟨contended_header ctx, true, true, false⟩).1.running = true
      · simp [hrun, LockExecution.result]
      · simp [hrun, LockExecution.result]

/-- The invariant the contended loop is entered with. -/
theorem loop_inv_contended_entry (ctx : Nat) :
    LoopInv ctx (contended_header ctx) (context_state_init ctx)
      ⟨contended_header ctx, true, true, false⟩ :=
  ⟨rfl, rfl, [], by simp, by simp, by simp [completion_effects]⟩

/-- The header of the contended path holds no store to `running` and no
wake-up. -/
theorem completion_effects_header (ctx : Nat) (t : List Effect) :
    completion_effects (contended_header ctx ++ t) = completion_effects t := by
  simp [completion_effects, contended_header, List.filter_append, List.filter_cons]

/-- C10, as amended.  The `running` flag over every execution, returning or not.
The initialiser sets it.  The call returns exactly what its execution returns
and does not return when the execution is blocked.  On the wait path: an
execution that returns has made exactly one store to `running`, of `FALSE`,
directly followed by the wake-up of the private context (no other store or
wake-up happens), and ends with the flag clear; an execution that is blocked
in the loop has made no store and has the flag still set, and only the wait
path can block.  On the other two paths the execution returns, no store is
made and the flag stays set.  The completion handler clears `running`, then
wakes the context of the state, and leaves the context field as it was; the
timeout callback leaves the whole state as it was and stores nothing; and a
dispatch changes the flag only when it dispatches the completion. -/
theorem running_flag_discipline (env : LockEnv) :
    (context_state_init env.ctx).running = true
    ∧ ot_admin_sysroot_lock env = (sysroot_lock_execution env).result
    ∧ (∀ r, sysroot_lock_execution env = .returned r → env.try_lock = .ok false →
        completion_effects r.world.trace = [.store_running false, .wakeup env.ctx]
        ∧ count_stores r.world.trace = 1
        ∧ r.state.running = false)
    ∧ (∀ state w, sysroot_lock_execution env = .blocked state w →
        env.try_lock = .ok false
        ∧ completion_effects w.trace = []
        ∧ count_stores w.trace = 0
        ∧ state.running = true)
    ∧ (env.try_lock ≠ .ok false →
        ∃ r, sysroot_lock_execution env = .returned r
          ∧ count_stores r.world.trace = 0 ∧ r.state.running = true)
    ∧ (∀ (res : Option GError) (state : ContextState) (w : World),
        (on_sysroot_lock_acquired res state w).1.running = false
        ∧ (on_sysroot_lock_acquired res state w).1.mainctx = state.mainctx
        ∧ (on_sysroot_lock_acquired res state w).2.trace
            = w.trace ++ [.store_running false, .wakeup state.mainctx])
    ∧ (∀ (state : ContextState) (w : World),
        (on_sysroot_lock_timeout state w).2.1 = state
        ∧ (on_sysroot_lock_timeout state w).2.2.trace = w.trace ++ [.print WAITING_MESSAGE])
    ∧ (∀ (state : ContextState) (w : World) (ev : LoopEvent),
        (dispatch state w ev).1.running ≠ state.running →
          ∃ res, ev = .lock_finished res) := by
  refine ⟨rfl, sysroot_lock_execution_result env, ?_, ?_, ?_, ?_, ?_, ?_⟩
  · intro r hex htry
    have hret : ot_admin_sysroot_lock env = some r := by
      rw [sysroot_lock_execution_result, hex]
      rfl
    obtain ⟨ctx, try_lock, schedule⟩ := env
    simp only at htry
    subst htry
    obtain ⟨_, _, hstate, t, ht, _, hcomp⟩ := sysroot_lock_contended_shape ctx schedule r hret
    have hce : completion_effects r.world.trace = [.store_running false, .wakeup ctx] := by
      rw [ht, completion_effects_contended, hcomp]
    refine ⟨hce, ?_, ?_⟩
    · rw [← count_stores_completion_effects, hce]
      rfl
    · rw [hstate]
  · intro state w hex
    obtain ⟨ctx, try_lock, schedule⟩ := env
    cases try_lock with
    | error e => simp [sysroot_lock_execution] at hex
    | ok acquired =>
      cases acquired with
      | true => simp [sysroot_lock_execution] at hex
      | false =>
        rw [sysroot_lock_execution_contended] at hex
        have hinv := wait_loop_reach_inv ctx (contended_header ctx) schedule
          (context_state_init ctx) ⟨contended_header ctx, true, true, false⟩
          (loop_inv_contended_entry ctx)
        by_cases hrun : (wait_loop_reach schedule (context_state_init ctx)
            ⟨contended_header ctx, true, true, false⟩).1.running = true
        · simp only [hrun, if_true, LockExecution.blocked.injEq] at hex
          obtain ⟨hs, hw⟩ := hex
          rw [hs, hw] at hinv
          rw [hs] at hrun
          obtain ⟨_, hflag, t, ht, _, hcomp⟩ := hinv
          have hpend : w.async_pending = true := by rw [← hflag]; exact hrun
          have hce : completion_effects w.trace = [] := by
            rw [ht, completion_effects_header]
            simpa [hpend] using hcomp
          refine ⟨rfl, hce, ?_, hrun⟩
          rw [← count_stores_completion_effects, hce]
          rfl
        · simp [hrun] at hex
  · intro htry
    obtain ⟨ctx, try_lock, schedule⟩ := env
    simp only at htry
    cases try_lock with
    | error e => exact ⟨_, rfl, rfl, rfl⟩
    | ok acquired =>
      cases acquired with
      | true => exact ⟨_, rfl, rfl, rfl⟩
      | false => exact absurd rfl htry
  · intro res state w
    simp [on_sysroot_lock_acquired, World.emit, List.append_assoc]
  · intro state w
    simp [on_sysroot_lock_timeout, World.emit]
  · intro state w ev hne
    cases ev with
    | timeout_ready =>
      exfalso
      apply hne
      by_cases hatt : w.timeout_attached = true <;>
        simp [dispatch, hatt, on_sysroot_lock_timeout]
    | lock_finished res => exact ⟨res, rfl⟩

/-- C10 as amended, at a contended call whose completion is dispatched after one
timer firing: the execution returns, with one store followed by the wake-up. -/
theorem running_flag_discipline_witness :
    ∃ r, sysroot_lock_execution ⟨7, .ok false, [[.timeout_ready], [.lock_finished none]]⟩
          = .returned r
      ∧ ot_admin_sysroot_lock ⟨7, .ok false, [[.timeout_ready], [.lock_finished none]]⟩ = some r
      ∧ completion_effects r.world.trace = [.store_running false, .wakeup 7]
      ∧ count_stores r.world.trace = 1 :=
  ⟨_, rfl, rfl,
    ((running_flag_discipline ⟨7, .ok false, [[.timeout_ready], [.lock_finished none]]⟩).2.2.1
      _ rfl rfl).1,
    ((running_flag_discipline ⟨7, .ok false, [[.timeout_ready], [.lock_finished none]]⟩).2.2.1
      _ rfl rfl).2.1⟩

/-- C10 as stated fails on the code: a contended call whose loop runs two timer
iterations and is never completed has taken the wait path (the timeout source
is attached, the first message printed and the asynchronous request issued),
does not return, and has written `running` zero times, not once. -/
theorem running_flag_never_written_while_blocked :
    sysroot_lock_execution ⟨7, .ok false, [[.timeout_ready], [.timeout_ready]]⟩
        = .blocked ⟨7, true⟩
            ⟨[.context_new 7, .push_thread_default 7, .try_lock, .timeout_source_new_seconds 3,
                .source_set_callback, .source_attach 7, .source_unref, .print WAITING_MESSAGE,
                .lock_async, .iteration 7 true, .print WAITING_MESSAGE, .iteration 7 true,
                .print WAITING_MESSAGE],
              true, true, false⟩
    ∧ ot_admin_sysroot_lock ⟨7, .ok false, [[.timeout_ready], [.timeout_ready]]⟩ = none
    ∧ count_stores
        (sysroot_lock_execution ⟨7, .ok false, [[.timeout_ready], [.timeout_ready]]⟩).world.trace
        = 0
    ∧ count_stores
        (sysroot_lock_execution ⟨7, .ok false, [[.timeout_ready], [.timeout_ready]]⟩).world.trace
        ≠ 1 :=
  ⟨rfl, rfl, rfl, by decide⟩

/-- C1 fails on the code: when the lock is contended and the asynchronous request
completes with a failure, the call still returns `TRUE`, with no error, while
this process does not hold the lock. -/
theorem sysroot_lock_true_without_lock :
    ∃ r, ot_admin_sysroot_lock
          ⟨0, .ok false, [[.lock_finished (some ⟨G_IO_ERROR, 0, "flock: No locks available"⟩)]]⟩
        = some r
      ∧ r.ret = true ∧ r.error = none ∧ r.world.lock_held = false :=
  ⟨_, rfl, rfl, rfl, rfl⟩

/-! ## The sysroot lock: no ceiling on the wait, and when success means locked -/

/-- On the contended path a call whose loop only ever finds the timeout source
ready never returns, however many iterations are run: the wait has no
ceiling. -/
theorem sysroot_lock_blocks_without_completion (ctx : Nat) (schedule : List (List LoopEvent))
    (honly : ∀ ready ∈ schedule, ∀ ev ∈ ready, ev = LoopEvent.timeout_ready) :
    ot_admin_sysroot_lock ⟨ctx, .ok false, schedule⟩ = none := by
  rw [sysroot_lock_contended_unfold, wait_loop_blocked schedule _ _ rfl honly]
  rfl

/-- A contended call whose loop runs three timer iterations and then has nothing
left to wake it does not return. -/
theorem sysroot_lock_blocks_without_completion_witness :
    ot_admin_sysroot_lock
      ⟨7, .ok false, [[.timeout_ready], [.timeout_ready], [.timeout_ready]]⟩ = none :=
  sysroot_lock_blocks_without_completion 7 [[.timeout_ready], [.timeout_ready], [.timeout_ready]]
    (by decide)

/-- As long as no completion carries a failure, the request being no longer
outstanding means the lock is held: one dispatch. -/
theorem dispatch_held (state : ContextState) (w : World) (ev : LoopEvent)
    (hev : ∀ err, ev ≠ .lock_finished (some err))
    (h : w.async_pending = false → w.lock_held = true) :
    (dispatch state w ev).2.async_pending = false → (dispatch state w ev).2.lock_held = true := by
  cases ev with
  | timeout_ready =>
    by_cases hatt : w.timeout_attached = true
    · simpa [dispatch, hatt, on_sysroot_lock_timeout, World.emit] using h
    · simpa [dispatch, hatt] using h
  | lock_finished failure =>
    cases failure with
    | some err => exact absurd rfl (hev err)
    | none =>
      by_cases hpend : w.async_pending = true
      · simp [dispatch, hpend, on_sysroot_lock_acquired, World.emit]
      · simpa [dispatch, hpend] using h

/-- The same for the ready sources of an iteration. -/
theorem dispatch_all_held (ready : List LoopEvent) (state : ContextState) (w : World)
    (hev : ∀ ev ∈ ready, ∀ err, ev ≠ .lock_finished (some err))
    (h : w.async_pending = false → w.lock_held = true) :
    (dispatch_all ready state w).2.async_pending = false →
      (dispatch_all ready state w).2.lock_held = true := by
  induction ready generalizing state w with
  | nil => exact h
  | cons ev rest ih =>
    exact ih _ _ (fun e he => hev e (List.mem_cons_of_mem _ he))
      (dispatch_held state w ev (hev ev (List.mem_cons_self _ _)) h)

/-- The same for the whole loop. -/
theorem wait_loop_held (schedule : List (List LoopEvent)) (state state' : ContextState)
    (w w' : World)
    (hev : ∀ ready ∈ schedule, ∀ ev ∈ ready, ∀ err, ev ≠ LoopEvent.lock_finished (some err))
    (h : w.async_pending = false → w.lock_held = true)
    (hret : wait_loop schedule state w = some (state', w')) :
    w'.async_pending = false → w'.lock_held = true := by
  induction schedule generalizing state w with
  | nil =>
    by_cases hrun : state.running = true
    · simp [wait_loop, hrun] at hret
    · simp only [wait_loop, hrun] at hret
      simp only [Bool.false_eq_true, if_false, Option.some.injEq, Prod.mk.injEq] at hret
      obtain ⟨_, rfl⟩ := hret
      exact h
  | cons ready rest ih =>
    by_cases hrun : state.running = true
    · simp only [wait_loop, hrun, if_true] at hret
      refine ih _ _ (fun r hr => hev r (List.mem_cons_of_mem _ hr)) ?_ hret
      unfold g_main_context_iteration
      exact dispatch_all_held ready state _ (hev ready (List.mem_cons_self _ _))
        (by simpa [World.emit] using h)
    · simp only [wait_loop, hrun] at hret
      simp only [Bool.false_eq_true, if_false, Option.some.injEq, Prod.mk.injEq] at hret
      obtain ⟨_, rfl⟩ := hret
      exact h

/-- When no completion of the asynchronous request carries a failure, a call
that returns `TRUE` leaves the process holding the sysroot lock. -/
theorem sysroot_lock_held_on_success (env : LockEnv) (r : LockResult)
    (hev : ∀ ready ∈ env.schedule, ∀ ev ∈ ready, ∀ err,
      ev ≠ LoopEvent.lock_finished (some err))
    (hret : ot_admin_sysroot_lock env = some r) (htrue : r.ret = true) :
    r.world.lock_held = true := by
  obtain ⟨ctx, try_lock, schedule⟩ := env
  cases try_lock with
  | error e =>
    have hr : r = sysroot_lock_out false (some e) (context_state_init ctx)
        ⟨[.context_new ctx, .push_thread_default ctx, .try_lock], false, false, false⟩ := by
      simpa [ot_admin_sysroot_lock, World.emit, World.start] using hret.symm
    subst hr
    simp [sysroot_lock_out] at htrue
  | ok acquired =>
    cases acquired with
    | true =>
      have hr : r = sysroot_lock_out true none (context_state_init ctx)
          ⟨[.context_new ctx, .push_thread_default ctx, .try_lock], false, false, true⟩ := by
        simpa [ot_admin_sysroot_lock, World.emit, World.start] using hret.symm
      subst hr
      rfl
    | false =>
      rw [sysroot_lock_contended_unfold] at hret
      cases hloop : wait_loop schedule (context_state_init ctx)
          ⟨contended_header ctx, true, true, false⟩ with
      | none => simp [hloop] at hret
      | some p =>
        obtain ⟨state', w'⟩ := p
        simp only [hloop, Option.map_some', Option.some.injEq] at hret
        have hinit : LoopInv ctx (contended_header ctx) (context_state_init ctx)
            ⟨contended_header ctx, true, true, false⟩ :=
          ⟨rfl, rfl, [], by simp, by simp, by simp [completion_effects]⟩
        obtain ⟨⟨_, hrun, _⟩, hstop⟩ := wait_loop_inv ctx _ schedule _ state' _ w' hinit hloop
        have hpend : w'.async_pending = false := by rw [← hrun]; exact hstop
        have hheld := wait_loop_held schedule _ state' _ w' hev (by simp) hloop hpend
        subst hret
        simpa [sysroot_lock_out, World.emit] using hheld

/-- At a contended call whose request completes without a failure after one
timer firing, the lock is held on return. -/
theorem sysroot_lock_held_on_success_witness :
    ∃ r, ot_admin_sysroot_lock ⟨7, .ok false, [[.timeout_ready], [.lock_finished none]]⟩ = some r
      ∧ r.ret = true ∧ r.world.lock_held = true :=
  ⟨_, rfl, rfl,
    sysroot_lock_held_on_success ⟨7, .ok false, [[.timeout_ready], [.lock_finished none]]⟩ _
      (by
        intro ready hr ev he err hbad
        simp only [List.mem_cons, List.mem_singleton, List.not_mem_nil, or_false] at hr
        rcases hr with rfl | rfl
        · simp only [List.mem_singleton] at he
          subst he
          cases hbad
        · simp only [List.mem_singleton] at he
          subst he
          cases hbad)
      rfl rfl⟩

end OtAdmin
